import Mathlib

/-!
Verification of the common-voice-offline repository: a shallow embedding of
its durable state (the latest Supabase schema variant: `users`, `sentences`,
`recordings` tables and the `stats_by_language`, `user_stats`,
`user_sentences` views), of the dashboard's read functions
(`getStatsByLanguage`, `getUserStats`, `getUserSentences`, `getTotalStats`,
and `Home.tsx`'s `fetchStats`), and of the bot-side state machine
(allocator, capture, reconciler), with theorems about the repository's
claimed invariants.

Tables are modelled as lists of rows; SQL aggregates as list functions;
the bot operations (whose Python sources are not part of this tree) are
modelled from the spec where so marked.
-/

namespace CVOffline

/-- Lifecycle status of a work item: the sentences.status column,
CHECK-comment 'active', 'uploaded', 'skipped' in the latest schema. -/
inductive WStatus where
  | active
  | uploaded
  | skipped
deriving DecidableEq, Repr

/-- Status of a recording attempt: the recordings.status column,
'pending', 'uploaded', 'failed'. -/
inductive RStatus where
  | pending
  | uploaded
  | failed
deriving DecidableEq, Repr

/-- Outcome of one submission to the external corpus service
(spec section 6: success, rejected with a reason, or transient failure). -/
inductive Outcome where
  | success
  | rejected (reason : String)
  | transient
deriving DecidableEq, Repr

/-- A row of the users table (latest schema variant: telegram-id keyed,
current_language folded into the user row). Timestamps are Nat ticks. -/
structure UserRow where
  telegram_id : Nat
  cv_user_id : String
  email : String
  username : String
  cv_token : Option String
  current_language : Option String
  bot_language : String
  age : Option String
  gender : Option String
  created_at : Nat
deriving DecidableEq, Repr

/-- A row of the sentences table (latest schema variant: keyed by
cv_user_id and language, with a per-batch sentence_number and a status). -/
structure SentenceRow where
  id : Nat
  cv_user_id : String
  language : String
  sentence_number : Nat
  text_id : String
  text : String
  hash : String
  status : WStatus
  created_at : Nat
deriving DecidableEq, Repr

/-- A row of the recordings table: at most one per sentence by the schema's
UNIQUE (sentence_id) constraint. -/
structure RecordingRow where
  id : Nat
  sentence_id : Nat
  file_id : String
  status : RStatus
  error_message : Option String
  created_at : Nat
  uploaded_at : Option Nat
deriving DecidableEq, Repr

/-- The durable database state: the three core tables. -/
structure DB where
  users : List UserRow
  sentences : List SentenceRow
  recordings : List RecordingRow
deriving DecidableEq, Repr

/-- The freshly provisioned database. -/
def DB.empty : DB := ⟨[], [], []⟩

/-- All sentence rows ever created for a contributor in a language
(any status, any batch). -/
def userRows (s : DB) (u l : String) : List SentenceRow :=
  s.sentences.filter (fun r => decide (r.cv_user_id = u ∧ r.language = l))

/-- The external text identifiers ever assigned to a contributor in a
language (any status). -/
def textIds (s : DB) (u l : String) : List String :=
  (userRows s u l).map (fun r => r.text_id)

/-- The contributor's currently active work items in a language. -/
def activeRows (s : DB) (u l : String) : List SentenceRow :=
  s.sentences.filter
    (fun r => decide (r.cv_user_id = u ∧ r.language = l ∧ r.status = WStatus.active))

/-- The position numbers of the contributor's currently active work items. -/
def activePositions (s : DB) (u l : String) : List Nat :=
  (activeRows s u l).map (fun r => r.sentence_number)

/-- The recording rows bound to a given sentence id. -/
def recordingsFor (s : DB) (sid : Nat) : List RecordingRow :=
  s.recordings.filter (fun r => decide (r.sentence_id = sid))

/-- Next BIGSERIAL value for the sentences table. -/
def nextSentenceId (s : DB) : Nat :=
  (s.sentences.map (fun r => r.id)).foldr max 0 + 1

/-- Next BIGSERIAL value for the recordings table. -/
def nextRecordingId (s : DB) : Nat :=
  (s.recordings.map (fun r => r.id)).foldr max 0 + 1

/-- Modelled from the spec: the deduplication half of the Sentence
Allocator (section 4.1 draws a 'fresh, deduplicated batch'); the bot's
Python allocator is not under this tree. Keeps the first candidate for
each external text identifier. -/
def dedupCands : List String → List (String × String) → List (String × String)
  | _, [] => []
  | seenKeys, c :: rest =>
    if c.1 ∈ seenKeys then dedupCands seenKeys rest
    else c :: dedupCands (c.1 :: seenKeys) rest

/-- Modelled from the spec: the Allocator's filter (section 4.1): drop
candidates whose identifier is present in the contributor's historical
work-item set for the language, any status, then deduplicate. -/
def freshCands (s : DB) (u l : String) (cands : List (String × String)) : List (String × String) :=
  dedupCands [] (cands.filter (fun c => decide (c.1 ∉ textIds s u l)))

/-- Modelled from the spec: the rows of one allocated batch, ids counting
up from base and positions counting up from pos, in the order received.
The opaque content hash is modelled by the text itself. -/
def buildRows (u l : String) (base pos now : Nat) : List (String × String) → List SentenceRow
  | [] => []
  | c :: rest =>
    SentenceRow.mk base u l pos c.1 c.2 c.2 WStatus.active now
      :: buildRows u l (base + 1) (pos + 1) now rest

/-- Modelled from the spec: the Sentence Allocator (section 4.1). Takes up
to n unseen candidates and appends them as active work items at positions
1..k in the order received. Partial fulfilment is just a smaller batch. -/
def allocateOp (u l : String) (cands : List (String × String)) (n now : Nat) (s : DB) : DB :=
  let fresh := (freshCands s u l cands).take n
  ⟨s.users, s.sentences ++ buildRows u l (nextSentenceId s) 1 now fresh, s.recordings⟩

/-- Modelled from the spec: position lookup for Recording Capture
(section 4.2): the contributor's active work item at that position, none
when already uploaded, skipped or never assigned. -/
def resolvePosition (s : DB) (u l : String) (p : Nat) : Option SentenceRow :=
  s.sentences.find? (fun r =>
    decide (r.cv_user_id = u ∧ r.language = l ∧ r.status = WStatus.active ∧
            r.sentence_number = p))

/-- Modelled from the spec: Recording Capture (section 4.2). Creates the
work item's recording attempt on first capture; on re-capture replaces the
artifact reference and resets status to pending instead of inserting a
second row (the schema's UNIQUE (sentence_id) forbids a second row). An
unknown position leaves the state unchanged. -/
def captureOp (u l : String) (p : Nat) (fileId : String) (now : Nat) (s : DB) : DB :=
  match resolvePosition s u l p with
  | none => s
  | some row =>
    if (recordingsFor s row.id).isEmpty then
      ⟨s.users, s.sentences,
       s.recordings ++ [⟨nextRecordingId s, row.id, fileId, RStatus.pending, none, now, none⟩]⟩
    else
      ⟨s.users, s.sentences,
       s.recordings.map (fun r =>
         if r.sentence_id = row.id then
           { r with file_id := fileId, status := RStatus.pending,
                    error_message := none, uploaded_at := none }
         else r)⟩

/-- Modelled from the spec: the per-attempt state transition of the Upload
Reconciler (section 4.3): success moves the attempt to uploaded with a
timestamp, a rejection moves it to failed with the service's detail, a
transient failure leaves it pending. -/
def applyOutcome (o : Outcome) (now : Nat) (r : RecordingRow) : RecordingRow :=
  match o with
  | Outcome.success => { r with status := RStatus.uploaded, uploaded_at := some now }
  | Outcome.rejected reason => { r with status := RStatus.failed, error_message := some reason }
  | Outcome.transient => r

/-- Sentence ids of the currently pending recording attempts: what one
reconciliation pass submits to the external service. -/
def pendingSids (s : DB) : List Nat :=
  (s.recordings.filter (fun r => decide (r.status = RStatus.pending))).map
    (fun r => r.sentence_id)

/-- Modelled from the spec: one Upload Reconciler pass (section 4.3) in
background mode, with the external service's per-submission outcome given
by f. Only pending attempts are submitted (the status check); a successful
submission atomically moves the attempt and its work item to uploaded; a
rejection fails the attempt and leaves the work item active; a transient
failure leaves the attempt pending. Returns the new state and the list of
submissions performed. -/
def reconcileOp (f : Nat → Outcome) (now : Nat) (s : DB) : DB × List Nat :=
  let recs := s.recordings.map (fun r =>
    if r.status = RStatus.pending then applyOutcome (f r.sentence_id) now r else r)
  let sens := s.sentences.map (fun sen =>
    if sen.status = WStatus.active ∧
       (∃ r ∈ s.recordings, r.sentence_id = sen.id ∧ r.status = RStatus.pending) ∧
       f sen.id = Outcome.success
    then { sen with status := WStatus.uploaded } else sen)
  (⟨s.users, sens, recs⟩, pendingSids s)

/-- Modelled from the spec: the skip command marks the given active
positions of the contributor's language as skipped. -/
def skipOp (u l : String) (ps : List Nat) (s : DB) : DB :=
  ⟨s.users,
   s.sentences.map (fun r =>
     if r.cv_user_id = u ∧ r.language = l ∧ r.status = WStatus.active ∧
        r.sentence_number ∈ ps
     then { r with status := WStatus.skipped } else r),
   s.recordings⟩

/-- Modelled from the spec: the explicit clear operation (section 4.1)
discards an in-progress batch's unresolved items; they stay queryable but
are excluded from future allocation, modelled as the skipped status. -/
def clearOp (u l : String) (s : DB) : DB :=
  ⟨s.users,
   s.sentences.map (fun r =>
     if r.cv_user_id = u ∧ r.language = l ∧ r.status = WStatus.active
     then { r with status := WStatus.skipped } else r),
   s.recordings⟩

/-- Registration inserts a users row; it touches no work item state. -/
def registerOp (u : UserRow) (s : DB) : DB :=
  ⟨s.users ++ [u], s.sentences, s.recordings⟩

/-- One event of the assignment/capture/upload state machine. Allocation
happens only on a cleared or completed batch (section 4.1: an explicit
clear discards unresolved items before a new batch is drawn). -/
inductive Step : DB → DB → Prop where
  | register (u : UserRow) (s : DB) : Step s (registerOp u s)
  | allocate (u l : String) (cands : List (String × String)) (n now : Nat) (s : DB)
      (hclear : activeRows s u l = []) : Step s (allocateOp u l cands n now s)
  | capture (u l : String) (p : Nat) (fileId : String) (now : Nat) (s : DB) :
      Step s (captureOp u l p fileId now s)
  | reconcile (f : Nat → Outcome) (now : Nat) (s : DB) : Step s (reconcileOp f now s).1
  | skip (u l : String) (ps : List Nat) (s : DB) : Step s (skipOp u l ps s)
  | clear (u l : String) (s : DB) : Step s (clearOp u l s)

/-- Database states reachable from the freshly provisioned database. -/
inductive Reachable : DB → Prop where
  | init : Reachable DB.empty
  | step {s s' : DB} : Reachable s → Step s s' → Reachable s'

/-! Invariants of the state machine. -/

/-- Per contributor and language, external text identifiers are never
repeated across all work items ever created. -/
def SeenUnique (s : DB) : Prop := ∀ u l, (textIds s u l).Nodup

/-- At most one recording row per work item (the schema's UNIQUE
(sentence_id) constraint). -/
def RecUnique (s : DB) : Prop :=
  (s.recordings.map (fun r => r.sentence_id)).Nodup

/-- Per contributor and language, active position numbers are unique. -/
def ActiveUnique (s : DB) : Prop := ∀ u l, (activePositions s u l).Nodup

/-- The conjunction of the machine's invariants. -/
def Inv (s : DB) : Prop := SeenUnique s ∧ RecUnique s ∧ ActiveUnique s

/-! Generic list lemmas about the shapes of the operations. -/

theorem map_field_map {α β : Type} (g : α → α) (f : α → β)
    (hg : ∀ r, f (g r) = f r) (l : List α) :
    (l.map g).map f = l.map f := by
  rw [List.map_map]
  exact List.map_congr_left (fun a _ => hg a)

theorem textIds_map_keep (g : SentenceRow → SentenceRow)
    (hg : ∀ r, (g r).cv_user_id = r.cv_user_id ∧ (g r).language = r.language ∧
               (g r).text_id = r.text_id)
    (l : List SentenceRow) (u lang : String) :
    ((l.map g).filter (fun r => decide (r.cv_user_id = u ∧ r.language = lang))).map
        (fun r => r.text_id)
      = (l.filter (fun r => decide (r.cv_user_id = u ∧ r.language = lang))).map
        (fun r => r.text_id) := by
  induction l with
  | nil => rfl
  | cons a t ih =>
    obtain ⟨h1, h2, h3⟩ := hg a
    by_cases hp : a.cv_user_id = u ∧ a.language = lang
    · have hc1 : decide ((g a).cv_user_id = u ∧ (g a).language = lang) = true := by
        simp [h1, h2, hp.1, hp.2]
      have hc2 : decide (a.cv_user_id = u ∧ a.language = lang) = true := by
        simp [hp.1, hp.2]
      rw [List.map_cons, List.filter_cons, List.filter_cons, hc1, hc2, if_pos rfl,
        if_pos rfl, List.map_cons, List.map_cons, h3, ih]
    · have hc1 : decide ((g a).cv_user_id = u ∧ (g a).language = lang) = false := by
        simpa [h1, h2] using hp
      have hc2 : decide (a.cv_user_id = u ∧ a.language = lang) = false := by
        simpa using hp
      rw [List.map_cons, List.filter_cons, List.filter_cons, hc1, hc2]
      simpa using ih

theorem activePositions_map_sublist (g : SentenceRow → SentenceRow)
    (hg : ∀ r, g r = r ∨ ((g r).cv_user_id = r.cv_user_id ∧ (g r).language = r.language ∧
          (g r).sentence_number = r.sentence_number ∧ (g r).status ≠ WStatus.active))
    (l : List SentenceRow) (u lang : String) :
    (((l.map g).filter (fun r =>
        decide (r.cv_user_id = u ∧ r.language = lang ∧ r.status = WStatus.active))).map
          (fun r => r.sentence_number)).Sublist
      ((l.filter (fun r =>
        decide (r.cv_user_id = u ∧ r.language = lang ∧ r.status = WStatus.active))).map
          (fun r => r.sentence_number)) := by
  induction l with
  | nil => exact List.Sublist.refl _
  | cons a t ih =>
    rcases hg a with ha | ⟨h1, h2, h3, h4⟩
    · simp only [List.map_cons, List.filter_cons, ha]
      by_cases hp : a.cv_user_id = u ∧ a.language = lang ∧ a.status = WStatus.active
      · rw [if_pos (by simpa using hp), if_pos (by simpa using hp)]
        exact List.Sublist.cons₂ _ ih
      · rw [if_neg (by simpa using hp), if_neg (by simpa using hp)]
        exact ih
    · simp only [List.map_cons, List.filter_cons]
      have hga : ¬((g a).cv_user_id = u ∧ (g a).language = lang ∧
          (g a).status = WStatus.active) := by
        intro hc
        exact h4 hc.2.2
      rw [if_neg (by simpa using hga)]
      by_cases hp : a.cv_user_id = u ∧ a.language = lang ∧ a.status = WStatus.active
      · rw [if_pos (by simpa using hp)]
        exact List.Sublist.cons _ ih
      · rw [if_neg (by simpa using hp)]
        exact ih

/-! Facts about the allocator's deduplication and filtering. -/

theorem dedupCands_subset (seen : List String) (l : List (String × String)) :
    ∀ c ∈ dedupCands seen l, c ∈ l := by
  induction l generalizing seen with
  | nil => intro c hc; simp [dedupCands] at hc
  | cons a t ih =>
    intro c hc
    by_cases ha : a.1 ∈ seen
    · rw [dedupCands, if_pos ha] at hc
      exact List.mem_cons_of_mem a (ih seen c hc)
    · rw [dedupCands, if_neg ha] at hc
      rcases List.mem_cons.mp hc with hc | hc
      · exact hc ▸ List.mem_cons_self a t
      · exact List.mem_cons_of_mem a (ih (a.1 :: seen) c hc)

theorem dedupCands_fst_not_seen (seen : List String) (l : List (String × String)) :
    ∀ k ∈ (dedupCands seen l).map Prod.fst, k ∉ seen := by
  induction l generalizing seen with
  | nil => intro k hk; simp [dedupCands] at hk
  | cons a t ih =>
    intro k hk
    by_cases ha : a.1 ∈ seen
    · rw [dedupCands, if_pos ha] at hk
      exact ih seen k hk
    · rw [dedupCands, if_neg ha, List.map_cons] at hk
      rcases List.mem_cons.mp hk with hk | hk
      · exact hk ▸ ha
      · intro hs
        exact ih (a.1 :: seen) k hk (List.mem_cons_of_mem _ hs)

theorem dedupCands_fst_nodup (seen : List String) (l : List (String × String)) :
    ((dedupCands seen l).map Prod.fst).Nodup := by
  induction l generalizing seen with
  | nil => simp [dedupCands]
  | cons a t ih =>
    by_cases ha : a.1 ∈ seen
    · rw [dedupCands, if_pos ha]
      exact ih seen
    · rw [dedupCands, if_neg ha, List.map_cons, List.nodup_cons]
      refine ⟨fun hmem => ?_, ih (a.1 :: seen)⟩
      exact dedupCands_fst_not_seen (a.1 :: seen) t a.1 hmem (List.mem_cons_self _ _)

theorem freshCands_not_seen (s : DB) (u l : String) (cands : List (String × String)) :
    ∀ c ∈ freshCands s u l cands, c.1 ∉ textIds s u l := by
  intro c hc
  have hmem := dedupCands_subset [] _ c hc
  exact of_decide_eq_true (List.mem_filter.mp hmem).2

theorem freshCands_take_not_seen (s : DB) (u l : String) (cands : List (String × String))
    (n : Nat) : ∀ k ∈ ((freshCands s u l cands).take n).map Prod.fst, k ∉ textIds s u l := by
  intro k hk
  obtain ⟨c, hc, hck⟩ := List.mem_map.mp hk
  have := (List.take_sublist n (freshCands s u l cands)).mem hc
  exact hck ▸ freshCands_not_seen s u l cands c this

theorem freshCands_take_fst_nodup (s : DB) (u l : String) (cands : List (String × String))
    (n : Nat) : (((freshCands s u l cands).take n).map Prod.fst).Nodup := by
  have hsub : (((freshCands s u l cands).take n).map Prod.fst).Sublist
      ((freshCands s u l cands).map Prod.fst) :=
    (List.take_sublist n (freshCands s u l cands)).map Prod.fst
  exact hsub.nodup (dedupCands_fst_nodup [] _)

/-! Shape of the batch the allocator appends. -/

theorem buildRows_mem (u l : String) (now : Nat) (fresh : List (String × String)) :
    ∀ base pos, ∀ r ∈ buildRows u l base pos now fresh,
      r.cv_user_id = u ∧ r.language = l ∧ r.status = WStatus.active := by
  induction fresh with
  | nil => intro base pos r hr; simp [buildRows] at hr
  | cons c rest ih =>
    intro base pos r hr
    rcases List.mem_cons.mp hr with hr | hr
    · subst hr; exact ⟨rfl, rfl, rfl⟩
    · exact ih (base + 1) (pos + 1) r hr

theorem buildRows_map_text (u l : String) (now : Nat) (fresh : List (String × String)) :
    ∀ base pos, (buildRows u l base pos now fresh).map (fun r => r.text_id)
      = fresh.map Prod.fst := by
  induction fresh with
  | nil => intro base pos; rfl
  | cons c rest ih =>
    intro base pos
    simp only [buildRows, List.map_cons]
    rw [ih (base + 1) (pos + 1)]

theorem buildRows_map_pos (u l : String) (now : Nat) (fresh : List (String × String)) :
    ∀ base pos, (buildRows u l base pos now fresh).map (fun r => r.sentence_number)
      = List.range' pos fresh.length := by
  induction fresh with
  | nil => intro base pos; rfl
  | cons c rest ih =>
    intro base pos
    simp only [buildRows, List.map_cons, List.length_cons, List.range'_succ]
    rw [ih (base + 1) (pos + 1)]

theorem newRows_filter_key (u l : String) (now base pos : Nat)
    (fresh : List (String × String)) (u' l' : String) (h : ¬(u = u' ∧ l = l')) :
    (buildRows u l base pos now fresh).filter
      (fun r => decide (r.cv_user_id = u' ∧ r.language = l')) = [] := by
  rw [List.filter_eq_nil_iff]
  intro r hr
  obtain ⟨h1, h2, _⟩ := buildRows_mem u l now fresh base pos r hr
  simp only [decide_eq_true_eq]
  intro hc
  exact h ⟨h1 ▸ hc.1, h2 ▸ hc.2⟩

theorem newRows_filter_key_self (u l : String) (now base pos : Nat)
    (fresh : List (String × String)) :
    (buildRows u l base pos now fresh).filter
      (fun r => decide (r.cv_user_id = u ∧ r.language = l))
      = buildRows u l base pos now fresh := by
  rw [List.filter_eq_self]
  intro r hr
  obtain ⟨h1, h2, _⟩ := buildRows_mem u l now fresh base pos r hr
  simp [h1, h2]

theorem newRows_filter_active (u l : String) (now base pos : Nat)
    (fresh : List (String × String)) (u' l' : String) (h : ¬(u = u' ∧ l = l')) :
    (buildRows u l base pos now fresh).filter
      (fun r => decide (r.cv_user_id = u' ∧ r.language = l' ∧ r.status = WStatus.active))
      = [] := by
  rw [List.filter_eq_nil_iff]
  intro r hr
  obtain ⟨h1, h2, _⟩ := buildRows_mem u l now fresh base pos r hr
  simp only [decide_eq_true_eq]
  intro hc
  exact h ⟨h1 ▸ hc.1, h2 ▸ hc.2.1⟩

theorem newRows_filter_active_self (u l : String) (now base pos : Nat)
    (fresh : List (String × String)) :
    (buildRows u l base pos now fresh).filter
      (fun r => decide (r.cv_user_id = u ∧ r.language = l ∧ r.status = WStatus.active))
      = buildRows u l base pos now fresh := by
  rw [List.filter_eq_self]
  intro r hr
  obtain ⟨h1, h2, h3⟩ := buildRows_mem u l now fresh base pos r hr
  simp [h1, h2, h3]

theorem textIds_allocate_same (s : DB) (u l : String) (cands : List (String × String))
    (n now : Nat) :
    textIds (allocateOp u l cands n now s) u l
      = textIds s u l ++ ((freshCands s u l cands).take n).map Prod.fst := by
  unfold textIds userRows allocateOp
  rw [List.filter_append, List.map_append, newRows_filter_key_self, buildRows_map_text]

theorem textIds_allocate_other (s : DB) (u l : String) (cands : List (String × String))
    (n now : Nat) (u' l' : String) (h : ¬(u = u' ∧ l = l')) :
    textIds (allocateOp u l cands n now s) u' l' = textIds s u' l' := by
  unfold textIds userRows allocateOp
  rw [List.filter_append, List.map_append, newRows_filter_key _ _ _ _ _ _ _ _ h,
    List.map_nil, List.append_nil]

theorem activePositions_allocate_same (s : DB) (u l : String)
    (cands : List (String × String)) (n now : Nat) :
    activePositions (allocateOp u l cands n now s) u l
      = activePositions s u l ++ List.range' 1 ((freshCands s u l cands).take n).length := by
  unfold activePositions activeRows allocateOp
  rw [List.filter_append, List.map_append, newRows_filter_active_self, buildRows_map_pos]

theorem activePositions_allocate_other (s : DB) (u l : String)
    (cands : List (String × String)) (n now : Nat) (u' l' : String)
    (h : ¬(u = u' ∧ l = l')) :
    activePositions (allocateOp u l cands n now s) u' l' = activePositions s u' l' := by
  unfold activePositions activeRows allocateOp
  rw [List.filter_append, List.map_append, newRows_filter_active _ _ _ _ _ _ _ _ h,
    List.map_nil, List.append_nil]

/-! Preservation of the invariants by each operation. -/

theorem seenUnique_map (s : DB) (us : List UserRow) (recs : List RecordingRow)
    (h : SeenUnique s) (g : SentenceRow → SentenceRow)
    (hg : ∀ r, (g r).cv_user_id = r.cv_user_id ∧ (g r).language = r.language ∧
               (g r).text_id = r.text_id) :
    SeenUnique ⟨us, s.sentences.map g, recs⟩ := by
  intro u l
  have hx := textIds_map_keep g hg s.sentences u l
  have hy := h u l
  simp only [textIds, userRows] at hy ⊢
  rw [hx]
  exact hy

theorem activeUnique_map (s : DB) (us : List UserRow) (recs : List RecordingRow)
    (h : ActiveUnique s) (g : SentenceRow → SentenceRow)
    (hg : ∀ r, g r = r ∨ ((g r).cv_user_id = r.cv_user_id ∧ (g r).language = r.language ∧
          (g r).sentence_number = r.sentence_number ∧ (g r).status ≠ WStatus.active)) :
    ActiveUnique ⟨us, s.sentences.map g, recs⟩ := by
  intro u l
  have hx := activePositions_map_sublist g hg s.sentences u l
  have hy := h u l
  simp only [activePositions, activeRows] at hy ⊢
  exact hx.nodup hy

theorem recUnique_map (us : List UserRow) (sens : List SentenceRow)
    (recs : List RecordingRow) (h : (recs.map (fun r => r.sentence_id)).Nodup)
    (g : RecordingRow → RecordingRow) (hg : ∀ r, (g r).sentence_id = r.sentence_id) :
    RecUnique ⟨us, sens, recs.map g⟩ := by
  show ((recs.map g).map (fun r => r.sentence_id)).Nodup
  rw [map_field_map g _ hg]
  exact h

theorem seenUnique_allocate {s : DB} (h : SeenUnique s) (u l : String)
    (cands : List (String × String)) (n now : Nat) :
    SeenUnique (allocateOp u l cands n now s) := by
  intro u' l'
  by_cases hk : u = u' ∧ l = l'
  · obtain ⟨rfl, rfl⟩ := hk
    rw [textIds_allocate_same]
    refine List.Nodup.append (h u l) (freshCands_take_fst_nodup s u l cands n) ?_
    intro a ha hfa
    exact freshCands_take_not_seen s u l cands n a hfa ha
  · rw [textIds_allocate_other _ _ _ _ _ _ _ _ hk]
    exact h u' l'

theorem activeUnique_allocate {s : DB} (h : ActiveUnique s) (u l : String)
    (cands : List (String × String)) (n now : Nat)
    (hclear : activeRows s u l = []) :
    ActiveUnique (allocateOp u l cands n now s) := by
  intro u' l'
  by_cases hk : u = u' ∧ l = l'
  · obtain ⟨rfl, rfl⟩ := hk
    rw [activePositions_allocate_same]
    have hz : activePositions s u l = [] := by
      unfold activePositions
      rw [hclear]
      rfl
    rw [hz, List.nil_append]
    exact List.nodup_range' 1 _
  · rw [activePositions_allocate_other _ _ _ _ _ _ _ _ hk]
    exact h u' l'

theorem captureOp_sentences (u l : String) (p : Nat) (fileId : String) (now : Nat)
    (s : DB) : (captureOp u l p fileId now s).sentences = s.sentences := by
  cases hres : resolvePosition s u l p with
  | none => simp [captureOp, hres]
  | some row =>
    by_cases he : (recordingsFor s row.id).isEmpty <;> simp [captureOp, hres, he]

theorem captureOp_recordings_insert (u l : String) (p : Nat) (fileId : String)
    (now : Nat) (s : DB) (row : SentenceRow)
    (hres : resolvePosition s u l p = some row)
    (he : (recordingsFor s row.id).isEmpty) :
    (captureOp u l p fileId now s).recordings
      = s.recordings
          ++ [⟨nextRecordingId s, row.id, fileId, RStatus.pending, none, now, none⟩] := by
  simp [captureOp, hres, he]

theorem captureOp_recordings_update (u l : String) (p : Nat) (fileId : String)
    (now : Nat) (s : DB) (row : SentenceRow)
    (hres : resolvePosition s u l p = some row)
    (he : ¬(recordingsFor s row.id).isEmpty) :
    (captureOp u l p fileId now s).recordings
      = s.recordings.map (fun r =>
          if r.sentence_id = row.id then
            { r with file_id := fileId, status := RStatus.pending,
                     error_message := none, uploaded_at := none }
          else r) := by
  simp [captureOp, hres, he]

theorem recUnique_capture {s : DB} (h : RecUnique s) (u l : String) (p : Nat)
    (fileId : String) (now : Nat) : RecUnique (captureOp u l p fileId now s) := by
  cases hres : resolvePosition s u l p with
  | none =>
    have hid : captureOp u l p fileId now s = s := by simp [captureOp, hres]
    rw [RecUnique, hid]
    exact h
  | some row =>
    by_cases he : (recordingsFor s row.id).isEmpty
    · rw [RecUnique, captureOp_recordings_insert u l p fileId now s row hres he,
        List.map_append]
      refine List.Nodup.append h (List.nodup_singleton _) ?_
      intro a ha hb
      have hb' : a = row.id := by simpa using hb
      subst hb'
      obtain ⟨r, hr, hra⟩ := List.mem_map.mp ha
      have hnil : recordingsFor s row.id = [] := List.isEmpty_iff.mp he
      rw [recordingsFor, List.filter_eq_nil_iff] at hnil
      exact hnil r hr (by simp [hra])
    · rw [RecUnique, captureOp_recordings_update u l p fileId now s row hres he]
      rw [map_field_map _ _ (fun r => by split <;> rfl)]
      exact h

theorem inv_empty : Inv DB.empty :=
  ⟨fun _ _ => List.nodup_nil, List.nodup_nil, fun _ _ => List.nodup_nil⟩

theorem inv_step {s s' : DB} (h : Inv s) (hs : Step s s') : Inv s' := by
  obtain ⟨hseen, hrec, hact⟩ := h
  cases hs with
  | register u s => exact ⟨hseen, hrec, hact⟩
  | allocate u l cands n now s hclear =>
    exact ⟨seenUnique_allocate hseen u l cands n now, hrec,
      activeUnique_allocate hact u l cands n now hclear⟩
  | capture u l p fileId now s =>
    refine ⟨?_, recUnique_capture hrec u l p fileId now, ?_⟩
    · intro u' l'
      have hy := hseen u' l'
      simp only [textIds, userRows, captureOp_sentences] at hy ⊢
      exact hy
    · intro u' l'
      have hy := hact u' l'
      simp only [activePositions, activeRows, captureOp_sentences] at hy ⊢
      exact hy
  | reconcile f now s =>
    refine ⟨seenUnique_map s _ _ hseen _ (fun sen => ?_),
      recUnique_map _ _ _ hrec _ (fun r => ?_),
      activeUnique_map s _ _ hact _ (fun sen => ?_)⟩
    · split <;> exact ⟨rfl, rfl, rfl⟩
    · split
      · cases f r.sentence_id <;> rfl
      · rfl
    · split
      · exact Or.inr ⟨rfl, rfl, rfl, by simp⟩
      · exact Or.inl rfl
  | skip u l ps s =>
    refine ⟨seenUnique_map s _ _ hseen _ (fun r => ?_), hrec,
      activeUnique_map s _ _ hact _ (fun r => ?_)⟩
    · split <;> exact ⟨rfl, rfl, rfl⟩
    · split
      · exact Or.inr ⟨rfl, rfl, rfl, by simp⟩
      · exact Or.inl rfl
  | clear u l s =>
    refine ⟨seenUnique_map s _ _ hseen _ (fun r => ?_), hrec,
      activeUnique_map s _ _ hact _ (fun r => ?_)⟩
    · split <;> exact ⟨rfl, rfl, rfl⟩
    · split
      · exact Or.inr ⟨rfl, rfl, rfl, by simp⟩
      · exact Or.inl rfl

theorem reachable_inv {s : DB} (h : Reachable s) : Inv s := by
  induction h with
  | init => exact inv_empty
  | step _ hs ih => exact inv_step ih hs

/-! Component equation lemmas for the reconciler. -/

theorem DB.ext {a b : DB} (h1 : a.users = b.users) (h2 : a.sentences = b.sentences)
    (h3 : a.recordings = b.recordings) : a = b := by
  cases a
  cases b
  cases h1
  cases h2
  cases h3
  rfl

theorem reconcile_fst_users (f : Nat → Outcome) (now : Nat) (s : DB) :
    ((reconcileOp f now s).1).users = s.users := rfl

theorem reconcile_fst_sentences (f : Nat → Outcome) (now : Nat) (s : DB) :
    ((reconcileOp f now s).1).sentences
      = s.sentences.map (fun sen =>
          if sen.status = WStatus.active ∧
             (∃ r ∈ s.recordings, r.sentence_id = sen.id ∧ r.status = RStatus.pending) ∧
             f sen.id = Outcome.success
          then { sen with status := WStatus.uploaded } else sen) := rfl

theorem reconcile_fst_recordings (f : Nat → Outcome) (now : Nat) (s : DB) :
    ((reconcileOp f now s).1).recordings
      = s.recordings.map (fun r =>
          if r.status = RStatus.pending then applyOutcome (f r.sentence_id) now r else r) :=
  rfl

theorem reconcile_snd (f : Nat → Outcome) (now : Nat) (s : DB) :
    (reconcileOp f now s).2 = pendingSids s := rfl

/-- A reconciler pass over a state with no pending attempt performs no
submission and changes nothing. -/
theorem reconcile_noop_of_no_pending {f : Nat → Outcome} {now : Nat} {t : DB}
    (hnp : ∀ r ∈ t.recordings, r.status ≠ RStatus.pending) :
    reconcileOp f now t = (t, []) := by
  have hpend : t.recordings.filter (fun r => decide (r.status = RStatus.pending)) = [] := by
    rw [List.filter_eq_nil_iff]
    intro r hr hp
    exact hnp r hr (of_decide_eq_true hp)
  have hrecs : t.recordings.map (fun r =>
      if r.status = RStatus.pending then applyOutcome (f r.sentence_id) now r else r)
      = t.recordings := by
    have hcong : ∀ r ∈ t.recordings, (if r.status = RStatus.pending
        then applyOutcome (f r.sentence_id) now r else r) = id r :=
      fun r hr => if_neg (hnp r hr)
    rw [List.map_congr_left hcong, List.map_id]
  have hsens : t.sentences.map (fun sen =>
      if sen.status = WStatus.active ∧
         (∃ r ∈ t.recordings, r.sentence_id = sen.id ∧ r.status = RStatus.pending) ∧
         f sen.id = Outcome.success
      then { sen with status := WStatus.uploaded } else sen) = t.sentences := by
    have hcong : ∀ sen ∈ t.sentences, (if sen.status = WStatus.active ∧
        (∃ r ∈ t.recordings, r.sentence_id = sen.id ∧ r.status = RStatus.pending) ∧
        f sen.id = Outcome.success
        then { sen with status := WStatus.uploaded } else sen) = id sen := by
      intro sen _
      refine if_neg ?_
      rintro ⟨_, ⟨r, hr, _, hrp⟩, _⟩
      exact hnp r hr hrp
    rw [List.map_congr_left hcong, List.map_id]
  refine Prod.ext ?_ ?_
  · exact DB.ext (reconcile_fst_users f now t)
      ((reconcile_fst_sentences f now t).trans hsens)
      ((reconcile_fst_recordings f now t).trans hrecs)
  · rw [reconcile_snd]
    unfold pendingSids
    rw [hpend]
    rfl

/-! A concrete trace of the machine, shared by the witnesses below:
register-free allocation of a two-sentence English batch to contributor
u1, capture of position 1, then a successful reconciliation pass. -/

/-- The trace after allocating a two-sentence batch. -/
def dbAlloc : DB := allocateOp "u1" "en" [("t1", "one"), ("t2", "two")] 2 0 DB.empty

/-- The trace after capturing position 1 with artifact f1. -/
def dbCap : DB := captureOp "u1" "en" 1 "f1" 1 dbAlloc

/-- The trace after one all-successful reconciliation pass. -/
def dbRec : DB := (reconcileOp (fun _ => Outcome.success) 2 dbCap).1

theorem reachable_dbAlloc : Reachable dbAlloc :=
  Reachable.step Reachable.init
    (Step.allocate "u1" "en" [("t1", "one"), ("t2", "two")] 2 0 DB.empty (by decide))

theorem reachable_dbCap : Reachable dbCap :=
  Reachable.step reachable_dbAlloc (Step.capture "u1" "en" 1 "f1" 1 dbAlloc)

theorem reachable_dbRec : Reachable dbRec :=
  Reachable.step reachable_dbCap (Step.reconcile (fun _ => Outcome.success) 2 dbCap)

/-- C2: in every reachable database state, for every contributor and
language, the pair (contributor, external text identifier) occurs at most
once across all work items ever created (any status, any batch); and an
allocation never adds a row whose text identifier was already seen for
that contributor and language — in particular an identifier with status
uploaded or skipped is never assigned again in a future active batch. -/
theorem seen_pair_globally_unique {s : DB} (h : Reachable s) (u l : String) :
    (textIds s u l).Nodup ∧
    (∀ cands n now, ∀ r' ∈ (allocateOp u l cands n now s).sentences,
      r' ∉ s.sentences → r'.text_id ∉ textIds s u l) := by
  refine ⟨(reachable_inv h).1 u l, ?_⟩
  intro cands n now r' hr' hnew
  have hshape : (allocateOp u l cands n now s).sentences
      = s.sentences ++ buildRows u l (nextSentenceId s) 1 now
          ((freshCands s u l cands).take n) := rfl
  rw [hshape] at hr'
  have hmem : r' ∈ buildRows u l (nextSentenceId s) 1 now
      ((freshCands s u l cands).take n) := by
    rcases List.mem_append.mp hr' with hc | hc
    · exact absurd hc hnew
    · exact hc
  intro hseen
  have hid : r'.text_id ∈ ((freshCands s u l cands).take n).map Prod.fst := by
    have := List.mem_map_of_mem (fun r => r.text_id) hmem
    rwa [buildRows_map_text] at this
  exact freshCands_take_not_seen s u l cands n r'.text_id hid hseen

/-- C2 witness: after allocating the concrete two-sentence batch, the seen
text identifiers of contributor u1 in English are exactly t1, t2 and are
duplicate-free. -/
theorem seen_pair_globally_unique_witness :
    (textIds dbAlloc "u1" "en").Nodup ∧ textIds dbAlloc "u1" "en" = ["t1", "t2"] :=
  ⟨(seen_pair_globally_unique reachable_dbAlloc "u1" "en").1, by decide⟩

/-- Helper for C3 and C4: in a list of recordings with duplicate-free
sentence ids, a nonempty filter on one sentence id is a single row. -/
theorem filter_sid_single {l : List RecordingRow}
    (h : (l.map (fun r => r.sentence_id)).Nodup) (sid : Nat)
    (hne : l.filter (fun r => decide (r.sentence_id = sid)) ≠ []) :
    ∃ r0, l.filter (fun r => decide (r.sentence_id = sid)) = [r0] ∧
      r0.sentence_id = sid := by
  induction l with
  | nil => simp at hne
  | cons a t ih =>
    rw [List.map_cons, List.nodup_cons] at h
    by_cases ha : a.sentence_id = sid
    · have htnil : t.filter (fun r => decide (r.sentence_id = sid)) = [] := by
        rw [List.filter_eq_nil_iff]
        intro r hr hp
        have hrs : r.sentence_id = sid := of_decide_eq_true hp
        exact h.1 (List.mem_map.mpr ⟨r, hr, by rw [hrs, ha]⟩)
      rw [List.filter_cons, if_pos (by simpa using ha), htnil]
      exact ⟨a, rfl, ha⟩
    · rw [List.filter_cons, if_neg (by simpa using ha)] at hne ⊢
      exact ih h.2 hne

/-- C3: in every reachable state there is at most one recording row per
work item (sentence id), and capturing an artifact for a resolvable
position leaves exactly one recording row for that work item, holding the
new artifact reference with status reset to pending — whether the work
item had a prior recording (replaced) or not (inserted). -/
theorem recording_attempt_unique_and_replaced {s : DB} (h : Reachable s) :
    (s.recordings.map (fun r => r.sentence_id)).Nodup ∧
    (∀ u l p fileId now row, resolvePosition s u l p = some row →
      ((captureOp u l p fileId now s).recordings.filter
          (fun r => decide (r.sentence_id = row.id))).map (fun r => (r.file_id, r.status))
        = [(fileId, RStatus.pending)]) := by
  have hrec : RecUnique s := (reachable_inv h).2.1
  refine ⟨hrec, ?_⟩
  intro u l p fileId now row hres
  by_cases he : (recordingsFor s row.id).isEmpty
  · rw [captureOp_recordings_insert u l p fileId now s row hres he, List.filter_append]
    have hnil : s.recordings.filter (fun r => decide (r.sentence_id = row.id)) = [] :=
      List.isEmpty_iff.mp he
    rw [hnil, List.nil_append, List.filter_cons, if_pos (by simp), List.filter_nil]
    rfl
  · rw [captureOp_recordings_update u l p fileId now s row hres he, List.filter_map]
    have hco : ((fun r : RecordingRow => decide (r.sentence_id = row.id)) ∘ (fun r =>
        if r.sentence_id = row.id then
          { r with file_id := fileId, status := RStatus.pending,
                   error_message := none, uploaded_at := none }
        else r)) = fun r : RecordingRow => decide (r.sentence_id = row.id) := by
      funext r
      show decide ((if r.sentence_id = row.id then _ else r).sentence_id = row.id)
        = decide (r.sentence_id = row.id)
      split <;> rfl
    rw [hco]
    have hne : s.recordings.filter (fun r => decide (r.sentence_id = row.id)) ≠ [] := by
      intro hnil
      exact he (by rw [recordingsFor, hnil]; rfl)
    obtain ⟨r0, hr0, hr0s⟩ := filter_sid_single hrec row.id hne
    rw [hr0, List.map_cons, List.map_nil, List.map_cons, List.map_nil, if_pos hr0s]

/-- C3 witness: re-capturing position 1 of the concrete trace (which
already holds artifact f1) leaves exactly one recording row for that work
item, with the new artifact f2 and status pending. -/
theorem recording_attempt_unique_and_replaced_witness :
    ((captureOp "u1" "en" 1 "f2" 3 dbCap).recordings.filter
        (fun r => decide (r.sentence_id = 1))).map (fun r => (r.file_id, r.status))
      = [("f2", RStatus.pending)] :=
  (recording_attempt_unique_and_replaced reachable_dbCap).2 "u1" "en" 1 "f2" 3
    ⟨1, "u1", "en", 1, "t1", "one", "one", WStatus.active, 0⟩ (by decide)

/-- C4 counterexample: the claim as stated fails. With one pending attempt
whose submission outcome is transient, the spec itself requires the first
run to leave it pending, so the second run (no intervening capture)
submits it again: the second run performs a submission, not zero. -/
theorem reconcile_twice_transient_resubmits :
    ¬ ((reconcileOp (fun _ => Outcome.transient) 3
        (reconcileOp (fun _ => Outcome.transient) 2 dbCap).1).2 = []) := by decide

/-- C4 amended: when no submission of the first reconciler run has a
transient outcome (every pending attempt returns success or a rejection),
a second run with no intervening capture performs zero submissions and
leaves the state unchanged; attempts already uploaded are excluded by the
status check before submission. -/
theorem reconcile_second_run_noop {f : Nat → Outcome} {now now2 : Nat} {s : DB}
    (h : ∀ sid ∈ (reconcileOp f now s).2, f sid ≠ Outcome.transient) :
    reconcileOp f now2 (reconcileOp f now s).1 = ((reconcileOp f now s).1, []) := by
  apply reconcile_noop_of_no_pending
  intro r1 hr1
  rw [reconcile_fst_recordings] at hr1
  obtain ⟨r, hr, rfl⟩ := List.mem_map.mp hr1
  by_cases hrp : r.status = RStatus.pending
  · rw [if_pos hrp]
    have hmem : r.sentence_id ∈ (reconcileOp f now s).2 := by
      rw [reconcile_snd]
      exact List.mem_map_of_mem _ (List.mem_filter.mpr ⟨hr, by simp [hrp]⟩)
    have hf := h _ hmem
    cases hout : f r.sentence_id with
    | success => simp [applyOutcome, hout]
    | rejected m => simp [applyOutcome, hout]
    | transient => exact absurd hout hf
  · rw [if_neg hrp]
    exact hrp

/-- C4 witness: on the concrete trace with an all-successful external
service, a second reconciliation run right after the first performs zero
submissions and leaves the state unchanged. -/
theorem reconcile_second_run_noop_witness :
    reconcileOp (fun _ => Outcome.success) 3 dbRec = (dbRec, []) :=
  @reconcile_second_run_noop (fun _ => Outcome.success) 2 3 dbCap (by decide)

/-- Positions form one contiguous batch 1..k. -/
def ContiguousFrom1 (ps : List Nat) : Prop := ps.Perm (List.range' 1 ps.length)

instance (ps : List Nat) : Decidable (ContiguousFrom1 ps) :=
  inferInstanceAs (Decidable (ps.Perm (List.range' 1 ps.length)))

/-- C7 counterexample: the claim as stated fails. In the reachable trace
state where position 1 of a two-sentence batch has been uploaded, the
active set holds the single position 2, which is not contiguous from 1. -/
theorem active_positions_gap_after_upload :
    Reachable dbRec ∧ ¬ ContiguousFrom1 (activePositions dbRec "u1" "en") :=
  ⟨reachable_dbRec, by decide⟩

/-- C7 amended: in every reachable state the active position numbers of a
contributor and language are unique, and immediately after an allocation
into a cleared (or completed) batch they are contiguous from 1; an upload
or skip removes its position, so contiguity is not preserved afterwards. -/
theorem active_positions_unique_and_batch_contiguous :
    (∀ s, Reachable s → ∀ u l, (activePositions s u l).Nodup) ∧
    (∀ s u l cands n now, activeRows s u l = [] →
      ContiguousFrom1 (activePositions (allocateOp u l cands n now s) u l)) := by
  constructor
  · intro s h u l
    exact (reachable_inv h).2.2 u l
  · intro s u l cands n now hclear
    rw [ContiguousFrom1, activePositions_allocate_same]
    have hz : activePositions s u l = [] := by
      unfold activePositions
      rw [hclear]
      rfl
    rw [hz, List.nil_append, List.length_range']

/-- C7 witness: in the concrete trace, active positions stay unique after
the upload, and the freshly allocated batch occupies positions 1..2. -/
theorem active_positions_unique_and_batch_contiguous_witness :
    (activePositions dbRec "u1" "en").Nodup ∧
    ContiguousFrom1 (activePositions dbAlloc "u1" "en") :=
  ⟨active_positions_unique_and_batch_contiguous.1 dbRec reachable_dbRec "u1" "en",
   active_positions_unique_and_batch_contiguous.2 DB.empty "u1" "en"
     [("t1", "one"), ("t2", "two")] 2 0 (by decide)⟩

/-! A deterministic model of the server-side order-by: insertion sort. -/

/-- Insert an element into a list at the first position where it sorts
before the head, by the boolean order le. -/
def insertBy {α : Type} (le : α → α → Bool) (a : α) : List α → List α
  | [] => [a]
  | b :: t => if le a b then a :: b :: t else b :: insertBy le a t

/-- Sort a list by the boolean order le (insertion sort). -/
def sortBy {α : Type} (le : α → α → Bool) : List α → List α
  | [] => []
  | a :: t => insertBy le a (sortBy le t)

theorem insertBy_perm {α : Type} (le : α → α → Bool) (a : α) (l : List α) :
    (insertBy le a l).Perm (a :: l) := by
  induction l with
  | nil => exact List.Perm.refl _
  | cons b t ih =>
    rw [insertBy]
    by_cases h : le a b
    · rw [if_pos h]
    · rw [if_neg h]
      exact (ih.cons b).trans (List.Perm.swap a b t)

theorem sortBy_perm {α : Type} (le : α → α → Bool) (l : List α) :
    (sortBy le l).Perm l := by
  induction l with
  | nil => exact List.Perm.refl _
  | cons a t ih =>
    rw [sortBy]
    exact (insertBy_perm le a (sortBy le t)).trans (ih.cons a)

theorem insertBy_pairwise {α : Type} (le : α → α → Bool)
    (htrans : ∀ a b c, le a b = true → le b c = true → le a c = true)
    (htotal : ∀ a b, le a b || le b a) (a : α) (l : List α)
    (h : List.Pairwise (fun x y => le x y = true) l) :
    List.Pairwise (fun x y => le x y = true) (insertBy le a l) := by
  induction l with
  | nil => simp [insertBy]
  | cons b t ih =>
    rw [List.pairwise_cons] at h
    rw [insertBy]
    by_cases hab : le a b
    · rw [if_pos hab]
      rw [List.pairwise_cons]
      refine ⟨?_, List.pairwise_cons.mpr h⟩
      intro x hx
      rcases List.mem_cons.mp hx with rfl | hx
      · exact hab
      · exact htrans a b x hab (h.1 x hx)
    · rw [if_neg hab]
      have hba : le b a := by
        rcases Bool.or_eq_true_iff.mp (htotal a b) with hc | hc
        · exact absurd hc hab
        · exact hc
      rw [List.pairwise_cons]
      refine ⟨?_, ih h.2⟩
      intro x hx
      have hx' : x ∈ a :: t := (insertBy_perm le a t).mem_iff.mp hx
      rcases List.mem_cons.mp hx' with rfl | hx'
      · exact hba
      · exact h.1 x hx'

theorem sortBy_pairwise {α : Type} (le : α → α → Bool)
    (htrans : ∀ a b c, le a b = true → le b c = true → le a c = true)
    (htotal : ∀ a b, le a b || le b a) (l : List α) :
    List.Pairwise (fun x y => le x y = true) (sortBy le l) := by
  induction l with
  | nil => simp [sortBy]
  | cons a t ih =>
    rw [sortBy]
    exact insertBy_pairwise le htrans htotal a (sortBy le t) ih

/-! The dashboard's read channel: the schema's views and the functions in
dashboard/src (utils and lib variants) and Home.tsx. -/

/-- Relations of the latest schema variant. -/
inductive Rel where
  | users
  | sentences
  | recordings
  | user_preferences
  | stats_by_language
  | user_stats
  | user_sentences
deriving DecidableEq, Repr

/-- Relations the anon role may SELECT: the schema's CREATE POLICY lines
grant SELECT on the users, sentences and recordings base tables, and the
GRANT SELECT lines grant the three views. -/
def anonSelectable : List Rel :=
  [Rel.users, Rel.sentences, Rel.recordings,
   Rel.stats_by_language, Rel.user_stats, Rel.user_sentences]

/-- Whether a relation is one of the derived read-only aggregate views. -/
def Rel.isDerivedView : Rel → Bool
  | Rel.stats_by_language => true
  | Rel.user_stats => true
  | Rel.user_sentences => true
  | _ => false

/-- Relations the dashboard's getUserStats queries: from users and from
user_stats. -/
def getUserStatsTargets : List Rel := [Rel.users, Rel.user_stats]

/-- Relations Home.tsx's fetchStats queries: from stats_by_language, from
users, from recordings. -/
def fetchStatsTargets : List Rel := [Rel.stats_by_language, Rel.users, Rel.recordings]

/-- Count of recordings with status uploaded: the dashboard's head-only
count query on recordings filtered to status uploaded. -/
def uploadedRecordingsCount (s : DB) : Nat :=
  (s.recordings.filter (fun r => decide (r.status = RStatus.uploaded))).length

/-- A row of the stats_by_language view. -/
structure LangStatsRow where
  language : String
  contributors : Nat
  recordings_uploaded : Nat
  recordings_pending : Nat
deriving DecidableEq, Repr

/-- The stats_by_language view of the latest schema: GROUP BY language
over the sentences table with contributors as COUNT(DISTINCT cv_user_id),
recordings_uploaded as the rows with status uploaded and
recordings_pending as the rows with status active. -/
def statsByLanguage (s : DB) : List LangStatsRow :=
  ((s.sentences.map (fun r => r.language)).dedup).map (fun l =>
    ⟨l,
     ((s.sentences.filter (fun r => decide (r.language = l))).map
        (fun r => r.cv_user_id)).dedup.length,
     (s.sentences.filter
        (fun r => decide (r.language = l ∧ r.status = WStatus.uploaded))).length,
     (s.sentences.filter
        (fun r => decide (r.language = l ∧ r.status = WStatus.active))).length⟩)

/-- The view's row for one language. -/
def statsFor (s : DB) (l : String) : Option LangStatsRow :=
  (statsByLanguage s).find? (fun r => decide (r.language = l))

/-- A row of the user_stats view. -/
structure UserStatsViewRow where
  cv_user_id : String
  total_contributions : Nat
  languages_contributed : Nat
deriving DecidableEq, Repr

/-- The user_stats view of the latest schema: GROUP BY cv_user_id over
the sentences table, counting uploaded rows and distinct uploaded
languages. -/
def userStatsView (s : DB) : List UserStatsViewRow :=
  ((s.sentences.map (fun r => r.cv_user_id)).dedup).map (fun uid =>
    ⟨uid,
     (s.sentences.filter
        (fun r => decide (r.cv_user_id = uid ∧ r.status = WStatus.uploaded))).length,
     ((s.sentences.filter
        (fun r => decide (r.cv_user_id = uid ∧ r.status = WStatus.uploaded))).map
          (fun r => r.language)).dedup.length⟩)

/-- A row of the user_sentences view. -/
structure UserSentenceRow where
  cv_user_id : String
  language : String
  text : String
  uploaded_at : Nat
deriving DecidableEq, Repr

/-- The user_sentences view: sentences with status uploaded, projected
with created_at exposed as uploaded_at. -/
def userSentencesView (s : DB) : List UserSentenceRow :=
  (s.sentences.filter (fun r => decide (r.status = WStatus.uploaded))).map
    (fun r => ⟨r.cv_user_id, r.language, r.text, r.created_at⟩)

/-- PostgREST single(): the row when the filtered result holds exactly
one, otherwise the PGRST116 condition, observed by the caller as null. -/
def singleRow {α : Type} : List α → Option α
  | [a] => some a
  | _ => none

/-- Result type of the dashboard's getUserStats (lib variant). -/
structure UserStatsOut where
  cv_user_id : String
  username : String
  joined_at : Nat
  current_language : Option String
  total_contributions : Nat
  languages_contributed : Nat
deriving DecidableEq, Repr

/-- The dashboard's getUserStats (the variant querying the users table
directly): looks the user up by cv_user_id with single(), null when that
does not yield one row; then reads the user's user_stats view row with
single(), ignoring its error and defaulting both counters to 0. -/
def getUserStats (s : DB) (cvUserId : String) : Option UserStatsOut :=
  (singleRow (s.users.filter (fun r => decide (r.cv_user_id = cvUserId)))).map (fun u =>
    ⟨u.cv_user_id, u.username, u.created_at, u.current_language,
     ((singleRow ((userStatsView s).filter
        (fun r => decide (r.cv_user_id = cvUserId)))).map
          (fun r => r.total_contributions)).getD 0,
     ((singleRow ((userStatsView s).filter
        (fun r => decide (r.cv_user_id = cvUserId)))).map
          (fun r => r.languages_contributed)).getD 0⟩)

/-- The dashboard's getUserSentences: the user_sentences view filtered by
cv_user_id and ordered by uploaded_at descending. -/
def getUserSentences (s : DB) (cvUserId : String) : List UserSentenceRow :=
  sortBy (fun a b => decide (b.uploaded_at ≤ a.uploaded_at))
    ((userSentencesView s).filter (fun r => decide (r.cv_user_id = cvUserId)))

/-- A supabase-js response to a head-only count query: head true returns
no rows, so the data field is null, while the count field carries the
exact count. -/
structure HeadCountResponse where
  data : Option (List Unit)
  count : Option Nat
deriving DecidableEq, Repr

/-- The head-only count query against a table holding n matching rows. -/
def headCountQuery (n : Nat) : HeadCountResponse := ⟨none, some n⟩

/-- The dashboard's getTotalStats as written in the lib variant: issues
head-only count queries on users and on uploaded recordings, then reads
the length of each response's data field, defaulting to 0. -/
def getTotalStats (s : DB) : Nat × Nat :=
  (((headCountQuery s.users.length).data.map List.length).getD 0,
   ((headCountQuery (uploadedRecordingsCount s)).data.map List.length).getD 0)

/-- Totals shown by Home.tsx. -/
structure TotalsOut where
  contributors : Nat
  recordings : Nat
  languages : Nat
deriving DecidableEq, Repr

/-- Home.tsx fetchStats: three separately awaited queries, each a pure
read of the state current when it runs. The language rows are read from
the view at the first state, filtered to truthy (nonempty) language and
sorted descending by uploaded plus pending; the user count is read at the
second state and the uploaded-recording count at the third, both from the
responses' count field. -/
def fetchStats (sView sUsers sRecs : DB) : List LangStatsRow × TotalsOut :=
  (sortBy (fun a b => decide (b.recordings_uploaded + b.recordings_pending
      ≤ a.recordings_uploaded + a.recordings_pending))
    ((statsByLanguage sView).filter (fun r => decide (r.language ≠ ""))),
   ⟨(headCountQuery sUsers.users.length).count.getD 0,
    (headCountQuery (uploadedRecordingsCount sRecs)).count.getD 0,
    (sortBy (fun a b => decide (b.recordings_uploaded + b.recordings_pending
        ≤ a.recordings_uploaded + a.recordings_pending))
      ((statsByLanguage sView).filter (fun r => decide (r.language ≠ "")))).length⟩)

/-- A state with one registered user and one uploaded recording of an
uploaded English sentence. -/
def dbOneUpload : DB :=
  ⟨[⟨7, "u1", "mail", "alice", some "tok", some "en", "en", none, none, 0⟩],
   [⟨1, "u1", "en", 1, "t1", "one", "one", WStatus.uploaded, 0⟩],
   [⟨1, 1, "f1", RStatus.uploaded, none, 1, some 2⟩]⟩

/-- C8: getTotalStats reads the data field of its head-only count
responses; a head-only response carries null data, so both totals come
out 0 even on a state with one registered user and one uploaded
recording. The counts the claim describes sit in the responses' count
field, which Home.tsx reads. -/
theorem getTotalStats_data_field_zero :
    getTotalStats dbOneUpload = (0, 0) ∧
    dbOneUpload.users.length = 1 ∧ uploadedRecordingsCount dbOneUpload = 1 := by decide

/-! C5: the per-language aggregate view. -/

/-- Written from the claim's words, for comparison with the view: the
number of uploaded recording rows whose sentence belongs to the
language. -/
def uploadedRecordingsInLanguage (s : DB) (l : String) : Nat :=
  (s.recordings.filter (fun r => decide (r.status = RStatus.uploaded ∧
    ∃ sen ∈ s.sentences, sen.id = r.sentence_id ∧ sen.language = l))).length

/-- Written from the claim's words: distinct contributors holding work
items in the language. -/
def contributorsInLanguage (s : DB) (l : String) : Nat :=
  ((s.sentences.filter (fun r => decide (r.language = l))).map
    (fun r => r.cv_user_id)).dedup.length

/-- Work items with status uploaded in the language. -/
def uploadedSentencesInLanguage (s : DB) (l : String) : Nat :=
  (s.sentences.filter
    (fun r => decide (r.language = l ∧ r.status = WStatus.uploaded))).length

/-- Work items still active in the language. -/
def activeSentencesInLanguage (s : DB) (l : String) : Nat :=
  (s.sentences.filter
    (fun r => decide (r.language = l ∧ r.status = WStatus.active))).length

/-- A state whose single sentence is still active while its recording row
is already uploaded. -/
def dbViewGap : DB :=
  ⟨[], [⟨1, "u1", "en", 1, "t1", "one", "one", WStatus.active, 0⟩],
   [⟨1, 1, "f1", RStatus.uploaded, none, 1, some 2⟩]⟩

/-- C5 counterexample: the claim as stated fails on the latest schema.
The view counts uploaded sentences, not uploaded recording rows: on
dbViewGap the view reports 0 for English while one uploaded English
recording exists. -/
theorem stats_view_counts_sentences_not_recordings :
    ¬ ((statsFor dbViewGap "en").map (fun r => r.recordings_uploaded)
        = some (uploadedRecordingsInLanguage dbViewGap "en")) := by decide

theorem find?_map_eq {α β : Type} (f : α → β) (p : β → Bool) (l : List α) :
    (l.map f).find? p = (l.find? (fun a => p (f a))).map f := by
  induction l with
  | nil => rfl
  | cons a t ih =>
    rw [List.map_cons]
    by_cases h : p (f a)
    · rw [List.find?_cons_of_pos _ h,
        @List.find?_cons_of_pos α (fun x => p (f x)) a t h, Option.map_some']
    · rw [List.find?_cons_of_neg _ h,
        @List.find?_cons_of_neg α (fun x => p (f x)) a t h, ih]

theorem find?_eq_some_self {α : Type} (p : α → Bool) {x : α} {xs : List α}
    (hx : x ∈ xs) (hp : ∀ y, p y = true ↔ y = x) : xs.find? p = some x := by
  induction xs with
  | nil => simp at hx
  | cons a t ih =>
    by_cases ha : p a
    · rw [List.find?_cons_of_pos _ ha, (hp a).mp ha]
    · rw [List.find?_cons_of_neg _ ha]
      rcases List.mem_cons.mp hx with hxa | hx'
      · exact absurd ((hp a).mpr hxa.symm) ha
      · exact ih hx'

/-- C5 amended: for every state and every language present in it, the
view has exactly one row for the language, reporting contributors as the
distinct contributors holding work items in that language and
recordings_uploaded as the work items uploaded in that language — which
equals the uploaded recordings only when sentence and recording statuses
are in sync. -/
theorem stats_by_language_aggregates (s : DB) (l : String)
    (hl : ∃ sen ∈ s.sentences, sen.language = l) :
    statsFor s l = some ⟨l, contributorsInLanguage s l,
      uploadedSentencesInLanguage s l, activeSentencesInLanguage s l⟩ := by
  obtain ⟨sen, hsen, hsl⟩ := hl
  have hmem : l ∈ (s.sentences.map (fun r => r.language)).dedup := by
    rw [List.mem_dedup]
    exact List.mem_map.mpr ⟨sen, hsen, hsl⟩
  unfold statsFor statsByLanguage
  rw [find?_map_eq]
  rw [find?_eq_some_self _ hmem (fun y => by simp)]
  rfl

/-- C5 witness: the amended aggregate evaluated on the concrete gap
state, whose English row reports one contributor, zero uploaded work
items and one active one. -/
theorem stats_by_language_aggregates_witness :
    statsFor dbViewGap "en" = some ⟨"en", contributorsInLanguage dbViewGap "en",
      uploadedSentencesInLanguage dbViewGap "en",
      activeSentencesInLanguage dbViewGap "en"⟩ :=
  stats_by_language_aggregates dbViewGap "en" (by decide)

/-- C10: getUserSentences returns exactly the uploaded sentences of the
looked-up user — a permutation of the uploaded-status rows carrying that
cv_user_id, hence no row of another status or user — sorted by
uploaded_at (the view's alias of created_at) in descending order. -/
theorem getUserSentences_exact_sorted (s : DB) (cvUserId : String) :
    (getUserSentences s cvUserId).Perm
      ((s.sentences.filter (fun r =>
          decide (r.status = WStatus.uploaded ∧ r.cv_user_id = cvUserId))).map
        (fun r => ⟨r.cv_user_id, r.language, r.text, r.created_at⟩)) ∧
    List.Pairwise (fun a b : UserSentenceRow => b.uploaded_at ≤ a.uploaded_at)
      (getUserSentences s cvUserId) := by
  constructor
  · refine (sortBy_perm _ _).trans ?_
    have heq : (userSentencesView s).filter (fun r => decide (r.cv_user_id = cvUserId))
        = (s.sentences.filter (fun r =>
            decide (r.status = WStatus.uploaded ∧ r.cv_user_id = cvUserId))).map
          (fun r => ⟨r.cv_user_id, r.language, r.text, r.created_at⟩) := by
      unfold userSentencesView
      rw [List.filter_map, List.filter_filter]
      congr 1
      refine List.filter_congr ?_
      intro a _
      by_cases h1 : a.cv_user_id = cvUserId <;>
        by_cases h2 : a.status = WStatus.uploaded <;>
          simp [Function.comp, h1, h2]
    rw [heq]
  · have htr : ∀ a b c : UserSentenceRow,
        decide (b.uploaded_at ≤ a.uploaded_at) = true →
        decide (c.uploaded_at ≤ b.uploaded_at) = true →
        decide (c.uploaded_at ≤ a.uploaded_at) = true := by
      intro a b c h1 h2
      exact decide_eq_true (Nat.le_trans (of_decide_eq_true h2) (of_decide_eq_true h1))
    have hto : ∀ a b : UserSentenceRow,
        (decide (b.uploaded_at ≤ a.uploaded_at)
          || decide (a.uploaded_at ≤ b.uploaded_at)) = true := by
      intro a b
      rcases Nat.le_total b.uploaded_at a.uploaded_at with h | h
      · simp [h]
      · simp [h]
    have hp := sortBy_pairwise (fun a b : UserSentenceRow =>
        decide (b.uploaded_at ≤ a.uploaded_at)) htr hto
      ((userSentencesView s).filter (fun r => decide (r.cv_user_id = cvUserId)))
    exact hp.imp (fun hab => of_decide_eq_true hab)

/-! C9: error handling of the earlier getUserStats variant, which looks
the user up in the public_users view and swallows the stats query's
error. The two external calls are modelled by their results. -/

/-- A PostgREST error: a code and a message. -/
structure PgErr where
  code : String
  message : String
deriving DecidableEq, Repr

/-- The projection of a public_users row the lookup selects. -/
structure PublicUser where
  cv_user_id : String
  username : String
  created_at : Nat
deriving DecidableEq, Repr

/-- The projection of a user_stats row the stats query selects. -/
structure StatsPair where
  total_contributions : Nat
  languages_contributed : Nat
deriving DecidableEq, Repr

/-- Result type of that getUserStats variant. -/
structure UserStatsResult where
  cv_user_id : String
  username : String
  joined_at : Nat
  total_contributions : Nat
  languages_contributed : Nat
deriving DecidableEq, Repr

/-- The dashboard's getUserStats (public_users variant): userRes is the
outcome of the single() user lookup, statsData the data of the stats
query whose error field the code ignores. On a lookup error the code
returns null exactly for code PGRST116 and rethrows anything else; on
success it reads statsData's first row, defaulting both counters to 0. -/
def getUserStatsV1 (userRes : Except PgErr PublicUser)
    (statsData : Option (List StatsPair)) : Except PgErr (Option UserStatsResult) :=
  match userRes with
  | Except.error e =>
    if e.code = "PGRST116" then Except.ok none else Except.error e
  | Except.ok u =>
    Except.ok (some ⟨u.cv_user_id, u.username, u.created_at,
      (((statsData.bind (fun d => d.head?)).map (fun r => r.total_contributions)).getD 0),
      (((statsData.bind (fun d => d.head?)).map (fun r => r.languages_contributed)).getD 0)⟩)

/-- C9: getUserStats returns null exactly when the user lookup reports
the PGRST116 no-matching-row error; any other lookup error is propagated
unchanged; and for a user that exists but has no stats row (empty or null
stats data) both counters are returned as 0. -/
theorem getUserStatsV1_error_handling (userRes : Except PgErr PublicUser)
    (statsData : Option (List StatsPair)) :
    (getUserStatsV1 userRes statsData = Except.ok none
      ↔ ∃ e, userRes = Except.error e ∧ e.code = "PGRST116") ∧
    (∀ e, userRes = Except.error e → e.code ≠ "PGRST116" →
      getUserStatsV1 userRes statsData = Except.error e) ∧
    (∀ u, userRes = Except.ok u → (statsData = none ∨ statsData = some []) →
      getUserStatsV1 userRes statsData
        = Except.ok (some ⟨u.cv_user_id, u.username, u.created_at, 0, 0⟩)) := by
  refine ⟨⟨?_, ?_⟩, ?_, ?_⟩
  · intro hok
    cases userRes with
    | error e =>
      by_cases hc : e.code = "PGRST116"
      · exact ⟨e, rfl, hc⟩
      · simp [getUserStatsV1, hc] at hok
    | ok u => simp [getUserStatsV1] at hok
  · rintro ⟨e, rfl, hc⟩
    simp [getUserStatsV1, hc]
  · intro e he hc
    subst he
    simp [getUserStatsV1, hc]
  · intro u hu hst
    subst hu
    rcases hst with rfl | rfl <;> simp [getUserStatsV1]

/-- C9 witness: the three behaviours at concrete inputs: a PGRST116
lookup yields null, a 500 lookup error is rethrown, and an existing user
with an empty stats result gets zero counters. -/
theorem getUserStatsV1_error_handling_witness :
    getUserStatsV1 (Except.error ⟨"PGRST116", "no rows"⟩) none = Except.ok none ∧
    getUserStatsV1 (Except.error ⟨"500", "boom"⟩) none
      = Except.error ⟨"500", "boom"⟩ ∧
    getUserStatsV1 (Except.ok ⟨"u1", "alice", 0⟩) (some [])
      = Except.ok (some ⟨"u1", "alice", 0, 0, 0⟩) :=
  ⟨(getUserStatsV1_error_handling (Except.error ⟨"PGRST116", "no rows"⟩) none).1.mpr
      ⟨⟨"PGRST116", "no rows"⟩, rfl, rfl⟩,
   (getUserStatsV1_error_handling (Except.error ⟨"500", "boom"⟩) none).2.1
      ⟨"500", "boom"⟩ rfl (by decide),
   (getUserStatsV1_error_handling (Except.ok ⟨"u1", "alice", 0⟩) (some [])).2.2
      ⟨"u1", "alice", 0⟩ rfl (Or.inr rfl)⟩

/-! C1: the anon read channel. -/

/-- C1 counterexample: the claim as stated fails. The anon role is
granted SELECT on the users base table itself (the schema's Allow anon to
read users policy), which is not a derived view, and the dashboard's own
getUserStats and fetchStats query base tables (users, recordings)
directly rather than only the aggregate views. -/
theorem anon_channel_reads_base_tables :
    Rel.users ∈ anonSelectable ∧ Rel.users.isDerivedView = false ∧
    Rel.users ∈ getUserStatsTargets ∧ Rel.users ∈ fetchStatsTargets ∧
    Rel.recordings ∈ fetchStatsTargets ∧ Rel.recordings.isDerivedView = false := by
  decide

/-- The credential and messaging-identity fields scrubbed from a user
row: cv_token, email and telegram_id replaced by constants. -/
def scrubUser (r : UserRow) : UserRow :=
  { r with cv_token := none, email := "", telegram_id := 0 }

/-- Two states differing only in raw credential material (cv_token,
email) and messaging identity (telegram_id) of their user rows. -/
def CredEquiv (s t : DB) : Prop :=
  s.users.map scrubUser = t.users.map scrubUser ∧
  s.sentences = t.sentences ∧ s.recordings = t.recordings

theorem singleRow_map {α β : Type} (f : α → β) (l : List α) :
    singleRow (l.map f) = (singleRow l).map f := by
  cases l with
  | nil => rfl
  | cons a t =>
    cases t with
    | nil => rfl
    | cons b t2 => rfl

theorem filter_scrub (us : List UserRow) (cvUserId : String) :
    (us.filter (fun r => decide (r.cv_user_id = cvUserId))).map scrubUser
      = (us.map scrubUser).filter (fun r => decide (r.cv_user_id = cvUserId)) := by
  rw [List.filter_map]
  rfl

theorem getUserStats_scrub (s t : DB)
    (hU : s.users.map scrubUser = t.users.map scrubUser)
    (hS : s.sentences = t.sentences) (cvUserId : String) :
    getUserStats s cvUserId = getUserStats t cvUserId := by
  have hV : userStatsView s = userStatsView t := by
    unfold userStatsView
    rw [hS]
  have h1 : (singleRow (s.users.filter
        (fun r => decide (r.cv_user_id = cvUserId)))).map scrubUser
      = (singleRow (t.users.filter
        (fun r => decide (r.cv_user_id = cvUserId)))).map scrubUser := by
    rw [← singleRow_map, ← singleRow_map, filter_scrub, filter_scrub, hU]
  unfold getUserStats
  cases hA : singleRow (s.users.filter (fun r => decide (r.cv_user_id = cvUserId))) with
  | none =>
    cases hB : singleRow (t.users.filter (fun r => decide (r.cv_user_id = cvUserId))) with
    | none => rfl
    | some v =>
      rw [hA, hB] at h1
      simp at h1
  | some u =>
    cases hB : singleRow (t.users.filter (fun r => decide (r.cv_user_id = cvUserId))) with
    | none =>
      rw [hA, hB] at h1
      simp at h1
    | some v =>
      rw [hA, hB] at h1
      simp only [Option.map_some', Option.some.injEq] at h1
      simp only [Option.map_some', Option.some.injEq]
      have f1 := congrArg (fun r : UserRow => r.cv_user_id) h1
      have f2 := congrArg (fun r : UserRow => r.username) h1
      have f3 := congrArg (fun r : UserRow => r.created_at) h1
      have f4 := congrArg (fun r : UserRow => r.current_language) h1
      have e1 : u.cv_user_id = v.cv_user_id := f1
      have e2 : u.username = v.username := f2
      have e3 : u.created_at = v.created_at := f3
      have e4 : u.current_language = v.current_language := f4
      rw [e1, e2, e3, e4, hV]

/-- C1 amended: the anon channel is not view-only, but every query the
dashboard issues projects no credential or messaging-identity column:
states that differ only in cv_token, email and telegram_id are
indistinguishable through all dashboard observations. -/
theorem dashboard_observations_credential_independent {s t : DB}
    (h : CredEquiv s t) (cvUserId : String) :
    statsByLanguage s = statsByLanguage t ∧
    s.users.length = t.users.length ∧
    uploadedRecordingsCount s = uploadedRecordingsCount t ∧
    getUserStats s cvUserId = getUserStats t cvUserId ∧
    getUserSentences s cvUserId = getUserSentences t cvUserId ∧
    getTotalStats s = getTotalStats t ∧
    fetchStats s s s = fetchStats t t t := by
  obtain ⟨hU, hS, hR⟩ := h
  have hlen : s.users.length = t.users.length := by
    have hx := congrArg List.length hU
    simpa using hx
  have hsv : statsByLanguage s = statsByLanguage t := by
    unfold statsByLanguage
    rw [hS]
  have hrc : uploadedRecordingsCount s = uploadedRecordingsCount t := by
    unfold uploadedRecordingsCount
    rw [hR]
  refine ⟨hsv, hlen, hrc, getUserStats_scrub s t hU hS cvUserId, ?_, ?_, ?_⟩
  · unfold getUserSentences userSentencesView
    rw [hS]
  · unfold getTotalStats
    rw [hlen, hrc]
  · unfold fetchStats
    rw [hsv, hlen, hrc]

/-- A state like dbOneUpload but with different credential material and
messaging identity: another telegram_id, email and cv_token. -/
def dbOneUploadCreds : DB :=
  ⟨[⟨8, "u1", "other", "alice", none, some "en", "en", none, none, 0⟩],
   [⟨1, "u1", "en", 1, "t1", "one", "one", WStatus.uploaded, 0⟩],
   [⟨1, 1, "f1", RStatus.uploaded, none, 1, some 2⟩]⟩

/-- C1 witness: the two concrete states differing only in telegram_id,
email and cv_token yield the same getUserStats result and the same
fetchStats result. -/
theorem dashboard_observations_credential_independent_witness :
    getUserStats dbOneUpload "u1" = getUserStats dbOneUploadCreds "u1" ∧
    fetchStats dbOneUpload dbOneUpload dbOneUpload
      = fetchStats dbOneUploadCreds dbOneUploadCreds dbOneUploadCreds :=
  ⟨(@dashboard_observations_credential_independent dbOneUpload dbOneUploadCreds
      ⟨by decide, by decide, by decide⟩ "u1").2.2.2.1,
   (@dashboard_observations_credential_independent dbOneUpload dbOneUploadCreds
      ⟨by decide, by decide, by decide⟩ "u1").2.2.2.2.2.2⟩

/-! C6: the status aggregation reads. -/

/-- Well-formed states: every recording references an existing sentence
(the schema's foreign key) and every sentence carries a nonempty language
code (the bot's configured languages). -/
def Wf (s : DB) : Prop :=
  (∀ r ∈ s.recordings, ∃ sen ∈ s.sentences, sen.id = r.sentence_id) ∧
  (∀ sen ∈ s.sentences, sen.language ≠ "")

/-- C6 counterexample: the claim as stated fails. fetchStats issues its
three queries separately; reading the language view on the empty state
and the counts after a commit of dbOneUpload yields a combined result —
no language rows yet one uploaded recording — that equals fetchStats of
no single well-formed snapshot. -/
theorem fetchStats_interleaved_matches_no_snapshot :
    ¬ ∃ s, Wf s ∧ fetchStats s s s = fetchStats DB.empty dbOneUpload dbOneUpload := by
  rintro ⟨s, ⟨hfk, hlang⟩, heq⟩
  have hrhs : fetchStats DB.empty dbOneUpload dbOneUpload = ([], ⟨1, 1, 0⟩) := by decide
  rw [hrhs] at heq
  have h1 : (fetchStats s s s).1 = [] := by rw [heq]
  have h2 : (fetchStats s s s).2.recordings = 1 := by rw [heq]
  have hz : sortBy (fun a b : LangStatsRow =>
      decide (b.recordings_uploaded + b.recordings_pending
        ≤ a.recordings_uploaded + a.recordings_pending))
      ((statsByLanguage s).filter (fun r => decide (r.language ≠ ""))) = [] := h1
  have hfilt : (statsByLanguage s).filter (fun r => decide (r.language ≠ "")) = [] := by
    have hperm := sortBy_perm (fun a b : LangStatsRow =>
        decide (b.recordings_uploaded + b.recordings_pending
          ≤ a.recordings_uploaded + a.recordings_pending))
      ((statsByLanguage s).filter (fun r => decide (r.language ≠ "")))
    rw [hz] at hperm
    exact List.perm_nil.mp hperm.symm
  have hlangs : (statsByLanguage s).map (fun r => r.language)
      = (s.sentences.map (fun r => r.language)).dedup := by
    unfold statsByLanguage
    rw [List.map_map]
    exact List.map_id _
  have hsen : s.sentences = [] := by
    by_contra hne
    obtain ⟨sen, hsenmem⟩ := List.exists_mem_of_ne_nil _ hne
    have hmem2 : sen.language ∈ (statsByLanguage s).map (fun r => r.language) := by
      rw [hlangs]
      exact List.mem_dedup.mpr (List.mem_map_of_mem _ hsenmem)
    obtain ⟨row, hrowmem, hrowl⟩ := List.mem_map.mp hmem2
    have hnot := List.filter_eq_nil_iff.mp hfilt row hrowmem
    have hre : row.language = "" := by simpa using hnot
    exact hlang sen hsenmem (by rw [← hrowl, hre])
  have hrecnil : s.recordings = [] := by
    rcases hrl : s.recordings with _ | ⟨r, rest⟩
    · rfl
    · exfalso
      obtain ⟨sen2, hsen2, _⟩ := hfk r (by rw [hrl]; exact List.mem_cons_self _ _)
      rw [hsen] at hsen2
      simp at hsen2
  have hcount : uploadedRecordingsCount s = 1 := h2
  rw [uploadedRecordingsCount, hrecnil] at hcount
  simp at hcount

/-- C6 amended: each aggregation read is a pure function of the state it
observes (no mutation), and when no commit intervenes — all three queries
of fetchStats observe one snapshot — the totals are exactly that
snapshot's registered-user count, uploaded-recording count and
(nonempty-) language count, and the table is the view's rows sorted
descending by total recordings; but the three queries are issued
separately, so a commit between them can yield a combined result matching
no snapshot. -/
theorem fetchStats_single_snapshot (s : DB) :
    (fetchStats s s s).2 = ⟨s.users.length, uploadedRecordingsCount s,
      ((statsByLanguage s).filter (fun r => decide (r.language ≠ ""))).length⟩ ∧
    List.Pairwise (fun a b : LangStatsRow =>
      b.recordings_uploaded + b.recordings_pending
        ≤ a.recordings_uploaded + a.recordings_pending) (fetchStats s s s).1 ∧
    ((fetchStats s s s).1).Perm
      ((statsByLanguage s).filter (fun r => decide (r.language ≠ ""))) := by
  refine ⟨?_, ?_, sortBy_perm _ _⟩
  · have hl := (sortBy_perm (fun a b : LangStatsRow =>
        decide (b.recordings_uploaded + b.recordings_pending
          ≤ a.recordings_uploaded + a.recordings_pending))
      ((statsByLanguage s).filter (fun r => decide (r.language ≠ "")))).length_eq
    show (⟨s.users.length, uploadedRecordingsCount s,
      (sortBy (fun a b : LangStatsRow =>
          decide (b.recordings_uploaded + b.recordings_pending
            ≤ a.recordings_uploaded + a.recordings_pending))
        ((statsByLanguage s).filter (fun r => decide (r.language ≠ "")))).length⟩
        : TotalsOut) = _
    rw [hl]
  · have htr : ∀ a b c : LangStatsRow,
        decide (b.recordings_uploaded + b.recordings_pending
          ≤ a.recordings_uploaded + a.recordings_pending) = true →
        decide (c.recordings_uploaded + c.recordings_pending
          ≤ b.recordings_uploaded + b.recordings_pending) = true →
        decide (c.recordings_uploaded + c.recordings_pending
          ≤ a.recordings_uploaded + a.recordings_pending) = true := by
      intro a b c hab hbc
      exact decide_eq_true (Nat.le_trans (of_decide_eq_true hbc) (of_decide_eq_true hab))
    have hto : ∀ a b : LangStatsRow,
        (decide (b.recordings_uploaded + b.recordings_pending
            ≤ a.recordings_uploaded + a.recordings_pending)
          || decide (a.recordings_uploaded + a.recordings_pending
            ≤ b.recordings_uploaded + b.recordings_pending)) = true := by
      intro a b
      rcases Nat.le_total (b.recordings_uploaded + b.recordings_pending)
        (a.recordings_uploaded + a.recordings_pending) with h | h
      · simp [h]
      · simp [h]
    exact (sortBy_pairwise _ htr hto _).imp (fun hab => of_decide_eq_true hab)

end CVOffline
